import Mathlib

set_option maxHeartbeats 1000000

/-!
Verification development for the editor repository's two controllers:

* `EditorEditionTools` (src/editor/components/edition.ts): the tab-driven
  edition-tools manager (tool selection, tab lifecycle, undo/redo wiring).
* `GUITextureEditor` (the texture editor panel): texture list, texture swap
  on grid selection, render-target preview loop, file-based texture creation.

The embedding translates each handler into a pure function over an explicit
state record.  Fallible code (JavaScript dereferences that would throw on a
null or out-of-range value) is translated into `Option`-returning functions
where `none` stands for a thrown error.
-/

/- ------------------------------------------------------------------ -/
/- GUITextureEditor (texture editor panel)                             -/
/- ------------------------------------------------------------------ -/

/-- Value held by an `onAfterRender` callback slot of a render target:
`null`, some callback installed by other code (identified abstractly), or the
preview closure installed by `_configureRenderTarget`. -/
inductive CbVal where
  | null : CbVal
  | callback (id : Nat) : CbVal
  | preview : CbVal
deriving DecidableEq

/-- A texture of the host engine, with the fields the editor code reads:
`name`, `isCube`, `isRenderTarget`, the private `_buffer`, `url`, the render
size, and the `onAfterRender` callback slot (meaningful for render targets). -/
structure BTexture where
  name : String
  isCube : Bool := false
  isRenderTarget : Bool := false
  buffer : Option String := none
  url : String := ""
  width : Nat := 0
  height : Nat := 0
  onAfterRender : CbVal := CbVal.null
deriving DecidableEq

/-- The serialization object produced by `texture.serialize()`, with the two
fields the handler mutates (`name`, `base64String`). -/
structure SerializationObject where
  name : String
  base64String : Option String := none
deriving DecidableEq

/-- Modelled from the host engine API: `texture.serialize()` returns a
serialization object carrying the texture's name and no base64 payload. -/
def serializeTexture (t : BTexture) : SerializationObject :=
  { name := t.name }

/-- Modelled from the host engine API: `Texture.Parse(serializationObject,
scene, rootUrl)` creates a texture from the serialization object. -/
def parseTexture (so : SerializationObject) : BTexture :=
  { name := so.name, buffer := so.base64String }

/-- The `DynamicTexture` created by `_configureRenderTarget`
(`new DynamicTexture("RenderTargetTexture", {width, height}, scene, false)`). -/
def mkDynamicTexture (w h : Nat) : BTexture :=
  { name := "RenderTargetTexture", width := w, height := h }

/-- Character-level lowercase, the model of `String.prototype.toLowerCase`. -/
def strToLower (s : String) : String := String.mk (s.toList.map Char.toLower)

/-- Does `pat` occur in the list (`indexOf(pat) !== -1`)? -/
def hasSubstr (pat : List Char) : List Char → Bool
  | [] => pat.isEmpty
  | c :: cs => pat.isPrefixOf (c :: cs) || hasSubstr pat cs

/-- String version of `s.indexOf(pat) !== -1`. -/
def strContains (s pat : String) : Bool := hasSubstr pat.toList s.toList

/-- JavaScript `String.prototype.replace` with a string pattern replaces the
first occurrence only; recursion over the subject list. -/
def replaceFirstAux (pat rep : List Char) : List Char → List Char
  | [] => []
  | c :: cs =>
    if pat.isPrefixOf (c :: cs) then rep ++ (c :: cs).drop pat.length
    else c :: replaceFirstAux pat rep cs

/-- String version of `s.replace(pat, rep)` (first occurrence only). -/
def replaceFirst (s pat rep : String) : String :=
  String.mk (replaceFirstAux pat.toList rep.toList s.toList)

/-- The mutable state of a `GUITextureEditor` instance: the constructor
arguments (`object` present?, `propertyPath`), the private texture fields,
the scene's texture list, the `FilesInput.FilesTextures` keys, the last value
written to `object[propertyPath]` (`assigned`, initially `none` meaning no
write yet), and the names of target textures that have been disposed. -/
structure TexEditorState where
  hasObject : Bool := false
  propertyPath : Option String := none
  targetTexture : Option BTexture := none
  currentRenderTarget : Option BTexture := none
  currentOnAfterRender : CbVal := CbVal.null
  dynamicTexture : Option BTexture := none
  currentPixels : Option (List Nat) := none
  sceneTextures : List BTexture := []
  filesTextures : List String := []
  assigned : Option BTexture := none
  disposedTargets : List String := []
deriving DecidableEq

/-- Constructor logic for `_targetObject`: when an object and a property path
are given, `_targetObject = object[propertyPath]`, nulled unless the value is
a `BaseTexture`; otherwise the field stays unset.  The property value is
`none` (null/undefined), a texture, or some non-texture value. -/
inductive PropValue where
  | nullv : PropValue
  | texture (t : BTexture) : PropValue
  | other : PropValue
deriving DecidableEq

/-- The `GUITextureEditor` constructor: the resulting `_targetObject`. -/
def initTargetObject (object : Bool) (propertyPath : Option String)
    (value : PropValue) : Option BTexture :=
  if object && propertyPath.isSome then
    match value with
    | PropValue.texture t => some t
    | _ => none
  else none

/-- The `postProcess.onApply` callback: the sampler bindings performed by the callback.
The texture is sampled (bound to "textureSampler") only when `_targetTexture`
is non-null. -/
def postProcessOnApply (targetTexture : Option BTexture) :
    List (String × BTexture) :=
  match targetTexture with
  | some t => [("textureSampler", t)]
  | none => []

/-- The `_configureRenderTarget` method: saves the render target's `onAfterRender`,
creates the dynamic texture, installs the preview closure as the new
`onAfterRender`, and sets `_targetTexture` to the dynamic texture.  `none`
models the throw that a null `_currentRenderTarget` dereference would raise. -/
def configureRenderTarget (s : TexEditorState) : Option TexEditorState :=
  match s.currentRenderTarget with
  | none => none
  | some rt =>
    let dyn := mkDynamicTexture rt.width rt.height
    some { s with
      currentOnAfterRender := rt.onAfterRender,
      dynamicTexture := some dyn,
      currentRenderTarget := some { rt with onAfterRender := CbVal.preview },
      targetTexture := some dyn }

/-- The `_restorRenderTarget` method: restores the saved `onAfterRender` on the render
target, disposes the dynamic texture and nulls `_dynamicTexture`,
`_currentPixels` and `_currentRenderTarget`.  Returns the updated state and
the restored render target object; `none` models the throw on a null
`_currentRenderTarget` or `_dynamicTexture`. -/
def restorRenderTarget (s : TexEditorState) :
    Option (TexEditorState × BTexture) :=
  match s.currentRenderTarget, s.dynamicTexture with
  | some rt, some _ =>
    some ({ s with
              currentRenderTarget := none,
              dynamicTexture := none,
              currentPixels := none },
          { rt with onAfterRender := s.currentOnAfterRender })
  | _, _ => none

/-- The actions performed by the preview `onAfterRender` closure, in order. -/
inductive RTAction where
  | callOriginal (cb : CbVal) (faceIndex : Nat) : RTAction
  | readPixels (x y w h : Nat) : RTAction
  | putImageData (x y : Nat) : RTAction
  | updateTexture (invertY : Bool) : RTAction
deriving DecidableEq

/-- The loop `for (i = 0; i < pixels.length; i++) imgData.data[i] = pixels[i]`
on a fixed-size byte buffer: writes past the end of the buffer are dropped
(typed-array semantics), bytes past the pixel count keep their old value. -/
def copyPixels : List Nat → List Nat → List Nat
  | data, [] => data
  | [], _ :: _ => []
  | _ :: ds, p :: ps => p :: copyPixels ds ps

/-- The replacement `onAfterRender` closure installed by
`_configureRenderTarget`: calls the saved original callback when truthy, reads
the pixels back, copies them into `imgData.data`, writes the image data into
the dynamic texture's 2D context and updates the texture.  Returns the action
trace and the new `imgData.data` contents, given the pixel buffer the engine
read back. -/
def previewAfterRender (saved : CbVal) (w h : Nat) (pixels : List Nat)
    (imgData : List Nat) (faceIndex : Nat) : List RTAction × List Nat :=
  let pre : List RTAction :=
    match saved with
    | CbVal.null => []
    | cb => [RTAction.callOriginal cb faceIndex]
  (pre ++ [RTAction.readPixels 0 0 w h, RTAction.putImageData 0 0,
           RTAction.updateTexture false],
   copyPixels imgData pixels)

/-- Tail of the texture-list `onClick` handler, after the `.hdr` early return,
the dispose and the serialization-object fixups: configure the render target
or parse the texture, then perform the `object[propertyPath]` assignment when
an object was given. -/
def onClickFinish (s1 : TexEditorState) (so : SerializationObject)
    (selTex : BTexture) : Option TexEditorState :=
  let s2? : Option TexEditorState :=
    if selTex.isRenderTarget then
      configureRenderTarget { s1 with currentRenderTarget := some selTex }
    else
      some { s1 with targetTexture := some (parseTexture so) }
  s2?.map (fun s2 => if s1.hasObject then { s2 with assigned := some selTex } else s2)

/-- The "Guess texture" section of the `onClick` handler: set the base64
payload when the texture has a `_buffer`, else point the serialization at the
texture's url when a files-input entry exists, else return early on a cube
texture; then finish. -/
def onClickGuess (s0 s1 : TexEditorState) (so : SerializationObject)
    (selTex : BTexture) : Option TexEditorState :=
  match selTex.buffer with
  | some b => onClickFinish s1 { so with base64String := some b } selTex
  | none =>
    if s0.filesTextures.contains selTex.name then
      onClickFinish s1 { so with name := selTex.url } selTex
    else if selTex.isCube then some s1
    else onClickFinish s1 so selTex

/-- The `onClick` handler from the selected-texture read onward: the `.hdr`
early return, the guarded dispose of `_targetTexture`, and the
guess-then-finish section.  `none` models a thrown error (reading `.name` of
an undefined texture at an out-of-range index). -/
def onClickCore (s0 : TexEditorState) (idx : Nat) : Option TexEditorState :=
  match s0.sceneTextures.get? idx with
  | none => none
  | some selTex =>
    if strContains (strToLower selTex.name) ".hdr" then some s0
    else
      let s1 :=
        match s0.targetTexture with
        | some tt => { s0 with disposedTargets := s0.disposedTargets ++ [tt.name] }
        | none => s0
      onClickGuess s0 s1 (serializeTexture selTex) selTex

/-- The texture list `onClick` handler (`_texturesList.onClick`), translated
clause by clause from the source: empty-selection early return, the guarded
`_restorRenderTarget` call, then the core on the selected index. -/
def onClick (s : TexEditorState) (selected : List Nat) : Option TexEditorState :=
  match selected with
  | [] => some s
  | idx :: _ =>
    match
      (if s.currentRenderTarget.isSome then (restorRenderTarget s).map Prod.fst
       else some s) with
    | none => none
    | some s0 => onClickCore s0 idx

/-- A row of the texture list grid (`ITextureRow`). -/
structure TextureRow where
  name : String
  recid : Int
deriving DecidableEq

/-- The state touched by the file-read callback: the scene texture list and
the grid rows. -/
structure TexListState where
  sceneTextures : List BTexture := []
  rows : List TextureRow := []
deriving DecidableEq

/-- Modelled from the host engine API (`Texture.CreateFromBase64String(data,
name, scene, ...)`): creates a texture registered in the scene whose name is
the data url "data:" ++ name and whose buffer holds the base64 data. -/
def createFromBase64String (data : String) (name : String) : BTexture :=
  { name := "data:" ++ name, buffer := some data }

/-- The `_onReadFileCallback(name)` callback applied to the read base64 `data`: creates the
texture in the current scene, strips "data:" from its name, and adds one grid
row bearing the file's name with `recid = getRowCount() - 1`. -/
def onReadFileCallback (s : TexListState) (name : String) (data : String) :
    TexListState :=
  let tex0 := createFromBase64String data name
  let tex := { tex0 with name := replaceFirst tex0.name "data:" "" }
  { s with
      sceneTextures := s.sceneTextures ++ [tex],
      rows := s.rows ++ [{ name := name, recid := (s.rows.length : Int) - 1 }] }

/- ------------------------------------------------------------------ -/
/- EditorEditionTools (edition.ts)                                     -/
/- ------------------------------------------------------------------ -/

/-- An edition tool as the manager sees it (`IEditionTool`): its container div
id, its tab name, and its `isSupported` predicate. -/
structure Tool (α : Type) where
  divId : String
  tabName : String
  isSupported : α → Bool

/-- The manager's state: the registered tools, the current tools, the set of
shown tabs (by tab name), the set of visible containers (by div id),
`lastTabName`, the current object, the div ids carrying an installed
`onFinishChange` handler, and the object each tool was last updated with
(`t.update(object)` stores it as `t.object`). -/
structure EditionState (α : Type) where
  tools : List (Tool α)
  currentTools : List (Tool α)
  shownTabs : List String
  shownDivs : List String
  lastTabName : Option String
  currentObject : α
  handlers : List String
  toolObjects : List (String × α)

/-- Mark a key shown (idempotent insertion). -/
def showKey (l : List String) (k : String) : List String :=
  if k ∈ l then l else k :: l

/-- Mark a key hidden (remove every occurrence). -/
def hideKey (l : List String) (k : String) : List String :=
  l.filter (fun x => decide (x ≠ k))

variable {α β : Type}

/-- The `addTool` method: append the (hidden) container, add the (hidden) tab, register
the tool, and initialize `lastTabName` with the first tool's tab name. -/
def addTool (s : EditionState α) (t : Tool α) : EditionState α :=
  { s with
      shownDivs := hideKey s.shownDivs t.divId,
      shownTabs := hideKey s.shownTabs t.tabName,
      tools := s.tools ++ [t],
      lastTabName :=
        match s.lastTabName with
        | none => some t.tabName
        | some x => some x }

/-- The supported branch of the `setObject` loop body: show the container and
the tab, update the tool with the object, install the undo/redo handler, and
push the tool onto `currentTools`. -/
def stepSupported (o : α) (st : EditionState α) (t : Tool α) : EditionState α :=
  { st with
      shownDivs := showKey st.shownDivs t.divId,
      shownTabs := showKey st.shownTabs t.tabName,
      toolObjects := (t.divId, o) :: st.toolObjects,
      handlers := showKey st.handlers t.divId,
      currentTools := st.currentTools ++ [t] }

/-- The unsupported branch of the `setObject` loop body: hide the container
and the tab. -/
def stepUnsupported (st : EditionState α) (t : Tool α) : EditionState α :=
  { st with
      shownDivs := hideKey st.shownDivs t.divId,
      shownTabs := hideKey st.shownTabs t.tabName }

/-- The `firstTool` update inside the supported branch:
`if (t.tabName === lastTabName) firstTool = t; else if (!firstTool) firstTool = t;` -/
def pickFirst (lastTab : Option String) (ft : Option (Tool α)) (t : Tool α) :
    Option (Tool α) :=
  if some t.tabName = lastTab then some t
  else if ft.isNone then some t
  else ft

/-- The `setObject` forEach loop over the registered tools, threading the
state and the `firstTool` accumulator. -/
def setObjectAux (o : α) (lastTab : Option String) :
    List (Tool α) → EditionState α → Option (Tool α) →
    EditionState α × Option (Tool α)
  | [], st, ft => (st, ft)
  | t :: ts, st, ft =>
    if t.isSupported o then
      setObjectAux o lastTab ts (stepSupported o st t) (pickFirst lastTab ft t)
    else
      setObjectAux o lastTab ts (stepUnsupported st t) ft

/-- The `firstTool` component of the loop alone. -/
def pickList (o : α) (lastTab : Option String) :
    List (Tool α) → Option (Tool α) → Option (Tool α)
  | [], ft => ft
  | t :: ts, ft =>
    if t.isSupported o then pickList o lastTab ts (pickFirst lastTab ft t)
    else pickList o lastTab ts ft

/-- The `changeTab` loop body: show the container of a tool whose tab name is
the target and record `lastTabName`; hide every other tool's container. -/
def changeTabStep (target : String) (st : EditionState α) (t : Tool α) :
    EditionState α :=
  if t.tabName = target then
    { st with shownDivs := showKey st.shownDivs t.divId, lastTabName := some target }
  else
    { st with shownDivs := hideKey st.shownDivs t.divId }

/-- The `changeTab` forEach loop. -/
def changeTabAux (target : String) :
    List (Tool α) → EditionState α → EditionState α
  | [], st => st
  | t :: ts, st => changeTabAux target ts (changeTabStep target st t)

/-- The `changeTab(target)` method. -/
def changeTab (s : EditionState α) (target : String) : EditionState α :=
  changeTabAux target s.tools s

/-- The `setObject(object)` method: reset `currentTools`, run the loop over the tools,
change to the selected tool's tab when one was found, and record the current
object. -/
def setObject (s : EditionState α) (o : α) : EditionState α :=
  let r := setObjectAux o s.lastTabName s.tools { s with currentTools := [] } none
  let st :=
    match r.2 with
    | some t => changeTab r.1 t.tabName
    | none => r.1
  { st with currentObject := o }

/-- The `refresh()` method: `setObject(this.currentObject)`. -/
def refresh (s : EditionState α) : EditionState α :=
  setObject s s.currentObject

/-- An undo/redo stack entry as pushed by the manager's handler. -/
structure UndoRedoEntry (α β : Type) where
  baseObject : α
  property : String
  toVal : β
  fromVal : β
  obj : α

/-- The `UndoRedo.Push` operation. -/
def undoRedoPush (stack : List (UndoRedoEntry α β)) (e : UndoRedoEntry α β) :
    List (UndoRedoEntry α β) :=
  e :: stack

/-- The `onFinishChange` handler installed by `setObject` on a supported
tool's element, with the tool's stored object `toolObject` captured: on a
completed change it pushes `{ baseObject: t.object, property, to: result,
from: initialValue, object }`. -/
def onFinishChangeHandler (toolObject : α)
    (stack : List (UndoRedoEntry α β)) (property : String) (result : β)
    (object : α) (initialValue : β) : List (UndoRedoEntry α β) :=
  undoRedoPush stack
    { baseObject := toolObject, property := property, toVal := result,
      fromVal := initialValue, obj := object }

/- ------------------------------------------------------------------ -/
/- Theorems: texture editor                                            -/
/- ------------------------------------------------------------------ -/

theorem copyPixels_get? (data pixels : List Nat) (i : Nat)
    (hp : i < pixels.length) (hd : i < data.length) :
    (copyPixels data pixels).get? i = pixels.get? i := by
  induction data generalizing pixels i with
  | nil => simp at hd
  | cons d ds ih =>
    cases pixels with
    | nil => simp at hp
    | cons p ps =>
      cases i with
      | zero => simp [copyPixels]
      | succ j =>
        simp only [copyPixels, List.get?]
        exact ih ps j (by simpa using hp) (by simpa using hd)

/-- C7: while a render target is previewed, the replacement `onAfterRender`
first invokes the saved original callback when one existed, then reads the
pixels back, copies every byte i of the pixel buffer into `imgData.data[i]`,
writes the image data into the dynamic texture and updates it. -/
theorem previewAfterRender_spec (saved : CbVal) (w h fi : Nat)
    (pixels imgData : List Nat) :
    ((saved = CbVal.null →
        (previewAfterRender saved w h pixels imgData fi).1 =
          [RTAction.readPixels 0 0 w h, RTAction.putImageData 0 0,
           RTAction.updateTexture false]) ∧
     (saved ≠ CbVal.null →
        (previewAfterRender saved w h pixels imgData fi).1 =
          RTAction.callOriginal saved fi ::
            [RTAction.readPixels 0 0 w h, RTAction.putImageData 0 0,
             RTAction.updateTexture false])) ∧
    (previewAfterRender saved w h pixels imgData fi).2 = copyPixels imgData pixels ∧
    (∀ i, i < pixels.length → i < imgData.length →
      (previewAfterRender saved w h pixels imgData fi).2.get? i = pixels.get? i) := by
  refine ⟨⟨?_, ?_⟩, rfl, ?_⟩
  · intro hnull; subst hnull; rfl
  · intro hne
    cases saved with
    | null => exact absurd rfl hne
    | callback id => rfl
    | preview => rfl
  · intro i hp hd
    exact copyPixels_get? imgData pixels i hp hd

theorem previewAfterRender_spec_witness :
    (previewAfterRender (CbVal.callback 5) 2 1 [9, 8, 7] [0, 0, 0, 0, 0] 4).1 =
      RTAction.callOriginal (CbVal.callback 5) 4 ::
        [RTAction.readPixels 0 0 2 1, RTAction.putImageData 0 0,
         RTAction.updateTexture false] ∧
    (previewAfterRender (CbVal.callback 5) 2 1 [9, 8, 7] [0, 0, 0, 0, 0] 4).2.get? 0 =
      some 9 :=
  ⟨(previewAfterRender_spec (CbVal.callback 5) 2 1 4 [9, 8, 7] [0, 0, 0, 0, 0]).1.2
      (by decide),
   by
    have h := (previewAfterRender_spec (CbVal.callback 5) 2 1 4 [9, 8, 7]
      [0, 0, 0, 0, 0]).2.2 0 (by decide) (by decide)
    simpa using h⟩

/-- C9: configuring a render-target preview and then restoring it is a round
trip: the render target's `onAfterRender` is back to its pre-configuration
value, and `_dynamicTexture`, `_currentPixels`, `_currentRenderTarget` are
all null again. -/
theorem configure_restor_roundtrip (s : TexEditorState) (rt : BTexture)
    (h : s.currentRenderTarget = some rt) :
    ∃ s1 s2 rt2,
      configureRenderTarget s = some s1 ∧
      restorRenderTarget s1 = some (s2, rt2) ∧
      rt2.onAfterRender = rt.onAfterRender ∧
      s2.dynamicTexture = none ∧ s2.currentPixels = none ∧
      s2.currentRenderTarget = none := by
  cases s with
  | mk ho pp tt crt coar dt cp st ft asg dts =>
    simp only at h
    subst h
    exact ⟨_, _, _, rfl, rfl, rfl, rfl, rfl, rfl⟩

theorem configure_restor_roundtrip_witness :
    ∃ s1 s2 rt2,
      configureRenderTarget
        { currentRenderTarget :=
            some { name := "rt", isRenderTarget := true, width := 4, height := 4,
                   onAfterRender := CbVal.callback 7 } } = some s1 ∧
      restorRenderTarget s1 = some (s2, rt2) ∧
      rt2.onAfterRender =
        ({ name := "rt", isRenderTarget := true, width := 4, height := 4,
           onAfterRender := CbVal.callback 7 } : BTexture).onAfterRender ∧
      s2.dynamicTexture = none ∧ s2.currentPixels = none ∧
      s2.currentRenderTarget = none :=
  configure_restor_roundtrip _ _ rfl

theorem replaceFirst_strip_data (n : String) :
    replaceFirst ("data:" ++ n) "data:" "" = n := by
  have hdata : ("data:" ++ n).toList = 'd' :: 'a' :: 't' :: 'a' :: ':' :: n.toList := by
    show ("data:" ++ n).data = _
    rw [String.data_append]
    rfl
  unfold replaceFirst
  rw [hdata]
  have h2 : replaceFirstAux "data:".toList "".toList
      ('d' :: 'a' :: 't' :: 'a' :: ':' :: n.toList) = n.toList := by
    simp [replaceFirstAux, List.isPrefixOf]
  rw [h2]
  rfl

/-- C8: for each file chosen through the add button, once the read completes a
texture is created in the scene from the base64 data, the "data:" prefix is
stripped from the created texture's name, and exactly one row bearing the
file's name is added to the list. -/
theorem onReadFileCallback_spec (s : TexListState) (name data : String) :
    (onReadFileCallback s name data).rows =
      s.rows ++ [{ name := name, recid := (s.rows.length : Int) - 1 }] ∧
    (onReadFileCallback s name data).rows.length = s.rows.length + 1 ∧
    ∃ tex,
      (onReadFileCallback s name data).sceneTextures = s.sceneTextures ++ [tex] ∧
      tex.name = name ∧ tex.buffer = some data := by
  refine ⟨rfl, by simp [onReadFileCallback], ?_⟩
  refine ⟨_, rfl, ?_, rfl⟩
  show replaceFirst ("data:" ++ name) "data:" "" = name
  exact replaceFirst_strip_data name

theorem onClickFinish_assigned (s1 : TexEditorState) (so : SerializationObject)
    (tex : BTexture) (hobj : s1.hasObject = true) :
    ∃ s2, onClickFinish s1 so tex = some s2 ∧ s2.assigned = some tex := by
  unfold onClickFinish
  cases hrt : tex.isRenderTarget with
  | true => simp [hrt, configureRenderTarget, hobj]
  | false => simp [hrt, hobj]

theorem onClickFinish_disposedTargets (s1 : TexEditorState)
    (so : SerializationObject) (tex : BTexture) (s2 : TexEditorState)
    (h : onClickFinish s1 so tex = some s2) :
    s2.disposedTargets = s1.disposedTargets := by
  unfold onClickFinish at h
  cases hrt : tex.isRenderTarget with
  | true =>
    simp [hrt, configureRenderTarget] at h
    cases hobj : s1.hasObject with
    | true => simp [hobj] at h; rw [← h]
    | false => simp [hobj] at h; rw [← h]
  | false =>
    simp [hrt] at h
    cases hobj : s1.hasObject with
    | true => simp [hobj] at h; rw [← h]
    | false => simp [hobj] at h; rw [← h]

theorem onClickFinish_isSome (s1 : TexEditorState) (so : SerializationObject)
    (tex : BTexture) : (onClickFinish s1 so tex).isSome = true := by
  unfold onClickFinish
  cases hrt : tex.isRenderTarget with
  | true => simp [hrt, configureRenderTarget]
  | false => simp [hrt]

theorem onClickGuess_assigned (s0 s1 : TexEditorState)
    (so : SerializationObject) (tex : BTexture)
    (hobj : s1.hasObject = true)
    (hskip : ¬(tex.buffer = none ∧ s0.filesTextures.contains tex.name = false ∧
               tex.isCube = true)) :
    ∃ s2, onClickGuess s0 s1 so tex = some s2 ∧ s2.assigned = some tex := by
  unfold onClickGuess
  cases hbuf : tex.buffer with
  | some b => exact onClickFinish_assigned s1 _ tex hobj
  | none =>
    cases hfiles : s0.filesTextures.contains tex.name with
    | true =>
      rw [if_pos rfl]
      exact onClickFinish_assigned s1 _ tex hobj
    | false =>
      rw [if_neg (by simp)]
      cases hcube : tex.isCube with
      | true => exact absurd ⟨hbuf, hfiles, hcube⟩ hskip
      | false =>
        rw [if_neg (by simp [hcube])]
        exact onClickFinish_assigned s1 _ tex hobj

theorem onClickGuess_disposedTargets (s0 s1 : TexEditorState)
    (so : SerializationObject) (tex : BTexture) (s2 : TexEditorState)
    (h : onClickGuess s0 s1 so tex = some s2) :
    s2.disposedTargets = s1.disposedTargets := by
  unfold onClickGuess at h
  cases hbuf : tex.buffer with
  | some b =>
    rw [hbuf] at h
    exact onClickFinish_disposedTargets s1 _ tex s2 h
  | none =>
    rw [hbuf] at h
    cases hfiles : s0.filesTextures.contains tex.name with
    | true =>
      rw [hfiles, if_pos rfl] at h
      exact onClickFinish_disposedTargets s1 _ tex s2 h
    | false =>
      rw [hfiles, if_neg (by simp)] at h
      cases hcube : tex.isCube with
      | true =>
        rw [hcube, if_pos rfl] at h
        cases h
        rfl
      | false =>
        rw [hcube, if_neg (by simp)] at h
        exact onClickFinish_disposedTargets s1 _ tex s2 h

theorem onClickGuess_isSome (s0 s1 : TexEditorState) (so : SerializationObject)
    (tex : BTexture) : (onClickGuess s0 s1 so tex).isSome = true := by
  unfold onClickGuess
  cases hbuf : tex.buffer with
  | some b => exact onClickFinish_isSome s1 _ tex
  | none =>
    cases hfiles : s0.filesTextures.contains tex.name with
    | true =>
      rw [if_pos rfl]
      exact onClickFinish_isSome s1 _ tex
    | false =>
      rw [if_neg (by simp)]
      cases hcube : tex.isCube with
      | true => rw [if_pos rfl]; rfl
      | false =>
        rw [if_neg (by simp [hcube])]
        exact onClickFinish_isSome s1 _ tex

theorem onClick_restore_step (s : TexEditorState)
    (hinv : s.currentRenderTarget.isSome = true → s.dynamicTexture.isSome = true) :
    ∃ s0,
      (if s.currentRenderTarget.isSome then (restorRenderTarget s).map Prod.fst
       else some s) = some s0 ∧
      s0.sceneTextures = s.sceneTextures ∧ s0.hasObject = s.hasObject ∧
      s0.filesTextures = s.filesTextures ∧ s0.targetTexture = s.targetTexture ∧
      s0.disposedTargets = s.disposedTargets ∧
      s0.propertyPath = s.propertyPath := by
  cases hcrt : s.currentRenderTarget with
  | none => exact ⟨s, by simp [hcrt], rfl, rfl, rfl, rfl, rfl, rfl⟩
  | some rt =>
    have h1 : s.dynamicTexture.isSome = true := hinv (by simp [hcrt])
    cases hdyn : s.dynamicTexture with
    | none => rw [hdyn] at h1; cases h1
    | some d =>
      exact ⟨{ s with currentRenderTarget := none, dynamicTexture := none,
                      currentPixels := none },
             by simp [hcrt, hdyn, restorRenderTarget],
             rfl, rfl, rfl, rfl, rfl, rfl⟩

theorem onClickCore_assigned (s0 : TexEditorState) (idx : Nat) (tex : BTexture)
    (hget : s0.sceneTextures.get? idx = some tex)
    (hobj : s0.hasObject = true)
    (hhdr : strContains (strToLower tex.name) ".hdr" = false)
    (hskip : ¬(tex.buffer = none ∧ s0.filesTextures.contains tex.name = false ∧
               tex.isCube = true)) :
    ∃ s2, onClickCore s0 idx = some s2 ∧ s2.assigned = some tex := by
  unfold onClickCore
  simp only [hget, hhdr, Bool.false_eq_true, if_false]
  cases htt : s0.targetTexture with
  | some tt => exact onClickGuess_assigned s0 _ _ tex hobj hskip
  | none => exact onClickGuess_assigned s0 _ _ tex hobj hskip

theorem onClickCore_disposedTargets (s0 : TexEditorState) (idx : Nat)
    (s2 : TexEditorState)
    (h : onClickCore s0 idx = some s2) (htt : s0.targetTexture = none) :
    s2.disposedTargets = s0.disposedTargets := by
  unfold onClickCore at h
  cases hget : s0.sceneTextures.get? idx with
  | none => rw [hget] at h; cases h
  | some tex =>
    simp only [hget] at h
    cases hhdr : strContains (strToLower tex.name) ".hdr" with
    | true =>
      rw [hhdr, if_pos rfl] at h
      cases h
      rfl
    | false =>
      rw [hhdr, if_neg (by simp)] at h
      simp only [htt] at h
      exact onClickGuess_disposedTargets s0 s0 _ tex s2 h

theorem onClickCore_isSome (s0 : TexEditorState) (idx : Nat)
    (hlen : idx < s0.sceneTextures.length) :
    (onClickCore s0 idx).isSome = true := by
  unfold onClickCore
  cases hget : s0.sceneTextures.get? idx with
  | none =>
    rw [List.get?_eq_none] at hget
    omega
  | some tex =>
    simp only [hget]
    cases hhdr : strContains (strToLower tex.name) ".hdr" with
    | true => rw [if_pos rfl]; rfl
    | false =>
      rw [if_neg (by simp)]
      cases htt : s0.targetTexture with
      | some tt => simp only [htt]; exact onClickGuess_isSome s0 _ _ tex
      | none => simp only [htt]; exact onClickGuess_isSome s0 _ _ tex

/-- C3 (amended): for every click with a non-empty selection, when the editor
was constructed with an object and a propertyPath, the handler assigns the
texture at the selected index of the scene's texture list to
`object[propertyPath]` — unless the texture's name contains ".hdr"
(case-insensitively), or the texture is a cube texture with no `_buffer` and
no files-input entry, in which cases the handler returns without assigning. -/
theorem onClick_assigns_selected (s : TexEditorState) (idx : Nat)
    (rest : List Nat) (tex : BTexture)
    (hget : s.sceneTextures.get? idx = some tex)
    (hobj : s.hasObject = true)
    (hinv : s.currentRenderTarget.isSome = true → s.dynamicTexture.isSome = true)
    (hhdr : strContains (strToLower tex.name) ".hdr" = false)
    (hskip : ¬(tex.buffer = none ∧ s.filesTextures.contains tex.name = false ∧
               tex.isCube = true)) :
    ∃ s2, onClick s (idx :: rest) = some s2 ∧ s2.assigned = some tex := by
  obtain ⟨s0, hstep, hsc, hho, hfl, htt, hdt, hpp⟩ := onClick_restore_step s hinv
  obtain ⟨s2, hcore, hass⟩ :=
    onClickCore_assigned s0 idx tex (by rw [hsc]; exact hget)
      (by rw [hho]; exact hobj) hhdr (by rw [hfl]; exact hskip)
  refine ⟨s2, ?_, hass⟩
  simp only [onClick, hstep]
  exact hcore

def c3WitnessTexture : BTexture := { name := "grass.png" }

def c3WitnessState : TexEditorState :=
  { hasObject := true, propertyPath := some "diffuseTexture",
    sceneTextures := [c3WitnessTexture] }

theorem onClick_assigns_selected_witness :
    ∃ s2, onClick c3WitnessState (0 :: []) = some s2 ∧
      s2.assigned = some c3WitnessTexture :=
  onClick_assigns_selected c3WitnessState 0 [] c3WitnessTexture rfl rfl
    (fun h => by cases h) rfl (by simp [c3WitnessTexture])

def c3HdrTexture : BTexture := { name := "environment.HDR" }

def c3HdrState : TexEditorState :=
  { hasObject := true, propertyPath := some "reflectionTexture",
    sceneTextures := [c3HdrTexture] }

/-- C3 counterexample: a click on a non-empty selection, with the editor
constructed with an object and a propertyPath, whose selected texture has
".hdr" in its name: the handler returns with the state unchanged and no
texture is assigned to `object[propertyPath]`. -/
theorem onClick_hdr_no_assign :
    c3HdrState.hasObject = true ∧
    c3HdrState.propertyPath = some "reflectionTexture" ∧
    c3HdrState.sceneTextures.get? 0 = some c3HdrTexture ∧
    onClick c3HdrState [0] = some c3HdrState ∧
    c3HdrState.assigned = none ∧
    (none : Option BTexture) ≠ some c3HdrTexture :=
  ⟨rfl, rfl, rfl, rfl, rfl, by simp⟩

/-- C4: the possibly-absent-texture dereferences are guarded: the constructor
nulls `_targetObject` when `object[propertyPath]` is not a texture; the
post-process samples `_targetTexture` only when it is non-null; the click
handler disposes nothing when `_targetTexture` is null; and the click handler
completes without a null dereference whenever the selected index is in range
and a configured render target has its dynamic texture. -/
theorem textureEditor_null_guards :
    (∀ (b : Bool) (pp : Option String) (v : PropValue),
        (∀ t, v ≠ PropValue.texture t) → initTargetObject b pp v = none) ∧
    (∀ (tt : Option BTexture) (x : String × BTexture),
        x ∈ postProcessOnApply tt → tt = some x.2) ∧
    (∀ (s s2 : TexEditorState) (sel : List Nat),
        onClick s sel = some s2 → s.targetTexture = none →
        s2.disposedTargets = s.disposedTargets) ∧
    (∀ (s : TexEditorState) (idx : Nat) (rest : List Nat),
        idx < s.sceneTextures.length →
        (s.currentRenderTarget.isSome = true → s.dynamicTexture.isSome = true) →
        (onClick s (idx :: rest)).isSome = true) := by
  refine ⟨?_, ?_, ?_, ?_⟩
  · intro b pp v hv
    cases v with
    | texture t => exact absurd rfl (hv t)
    | nullv => simp [initTargetObject]
    | other => simp [initTargetObject]
  · intro tt x hx
    cases tt with
    | none => simp [postProcessOnApply] at hx
    | some t =>
      simp [postProcessOnApply] at hx
      subst hx
      rfl
  · intro s s2 sel h htt
    cases sel with
    | nil =>
      simp only [onClick] at h
      cases h
      rfl
    | cons idx rest =>
      simp only [onClick] at h
      cases hcrt : s.currentRenderTarget with
      | none =>
        simp only [hcrt, Option.isSome_none, Bool.false_eq_true, if_false] at h
        exact onClickCore_disposedTargets s idx s2 h htt
      | some rt =>
        cases hdyn : s.dynamicTexture with
        | none =>
          simp [restorRenderTarget, hcrt, hdyn] at h
        | some d =>
          simp only [Option.isSome_some, if_true, restorRenderTarget, hcrt,
            hdyn, Option.map_some] at h
          have h2 := onClickCore_disposedTargets _ idx s2 h (by simp [htt])
          simpa using h2
  · intro s idx rest hlen hinv
    obtain ⟨s0, hstep, hsc, hho, hfl, htt, hdt, hpp⟩ := onClick_restore_step s hinv
    simp only [onClick, hstep]
    exact onClickCore_isSome s0 idx (by rw [hsc]; exact hlen)

def c4HdrState : TexEditorState := { sceneTextures := [{ name := "probe.hdr" }] }

theorem textureEditor_null_guards_witness :
    initTargetObject true (some "diffuseTexture") PropValue.other = none ∧
    (some ({ name := "probe.hdr" } : BTexture) : Option BTexture) =
      some (("textureSampler", ({ name := "probe.hdr" } : BTexture))).2 ∧
    c4HdrState.disposedTargets = c4HdrState.disposedTargets ∧
    (onClick c4HdrState (0 :: [])).isSome = true :=
  ⟨textureEditor_null_guards.1 true (some "diffuseTexture") PropValue.other
      (fun t h => by cases h),
   textureEditor_null_guards.2.1 (some { name := "probe.hdr" })
      ("textureSampler", { name := "probe.hdr" }) (by simp [postProcessOnApply]),
   textureEditor_null_guards.2.2.1 c4HdrState c4HdrState [0] rfl rfl,
   textureEditor_null_guards.2.2.2 c4HdrState 0 [] (by simp [c4HdrState])
      (fun h => by cases h)⟩

/- ------------------------------------------------------------------ -/
/- Theorems: edition tools manager                                     -/
/- ------------------------------------------------------------------ -/

theorem mem_showKey (l : List String) (k k2 : String) :
    k2 ∈ showKey l k ↔ k2 = k ∨ k2 ∈ l := by
  unfold showKey
  by_cases h : k ∈ l
  · simp only [if_pos h]
    constructor
    · exact fun h2 => Or.inr h2
    · rintro (rfl | h2)
      · exact h
      · exact h2
  · simp only [if_neg h, List.mem_cons]

theorem mem_hideKey (l : List String) (k k2 : String) :
    k2 ∈ hideKey l k ↔ k2 ∈ l ∧ k2 ≠ k := by
  unfold hideKey
  simp [List.mem_filter]

theorem setObjectAux_tools (o : α) (lt : Option String) (l : List (Tool α))
    (st : EditionState α) (ft : Option (Tool α)) :
    (setObjectAux o lt l st ft).1.tools = st.tools := by
  induction l generalizing st ft with
  | nil => rfl
  | cons t ts ih =>
    unfold setObjectAux
    cases h : t.isSupported o with
    | true => rw [if_pos rfl]; exact ih _ _
    | false => rw [if_neg (by simp)]; exact ih _ _

theorem setObjectAux_lastTabName (o : α) (lt : Option String)
    (l : List (Tool α)) (st : EditionState α) (ft : Option (Tool α)) :
    (setObjectAux o lt l st ft).1.lastTabName = st.lastTabName := by
  induction l generalizing st ft with
  | nil => rfl
  | cons t ts ih =>
    unfold setObjectAux
    cases h : t.isSupported o with
    | true => rw [if_pos rfl]; exact ih _ _
    | false => rw [if_neg (by simp)]; exact ih _ _

theorem setObjectAux_currentObject (o : α) (lt : Option String)
    (l : List (Tool α)) (st : EditionState α) (ft : Option (Tool α)) :
    (setObjectAux o lt l st ft).1.currentObject = st.currentObject := by
  induction l generalizing st ft with
  | nil => rfl
  | cons t ts ih =>
    unfold setObjectAux
    cases h : t.isSupported o with
    | true => rw [if_pos rfl]; exact ih _ _
    | false => rw [if_neg (by simp)]; exact ih _ _

theorem setObjectAux_currentTools (o : α) (lt : Option String)
    (l : List (Tool α)) (st : EditionState α) (ft : Option (Tool α)) :
    (setObjectAux o lt l st ft).1.currentTools =
      st.currentTools ++ l.filter (fun t => t.isSupported o) := by
  induction l generalizing st ft with
  | nil => simp [setObjectAux]
  | cons t ts ih =>
    unfold setObjectAux
    cases h : t.isSupported o with
    | true =>
      rw [if_pos rfl, ih]
      simp [stepSupported, List.filter_cons, h]
    | false =>
      rw [if_neg (by simp), ih]
      simp [stepUnsupported, List.filter_cons, h]

theorem setObjectAux_snd (o : α) (lt : Option String) (l : List (Tool α))
    (st : EditionState α) (ft : Option (Tool α)) :
    (setObjectAux o lt l st ft).2 = pickList o lt l ft := by
  induction l generalizing st ft with
  | nil => rfl
  | cons t ts ih =>
    unfold setObjectAux pickList
    cases h : t.isSupported o with
    | true => rw [if_pos rfl, if_pos rfl]; exact ih _ _
    | false => rw [if_neg (by simp), if_neg (by simp)]; exact ih _ _

theorem pickList_of_unsupported (o : α) (lt : Option String)
    (l : List (Tool α)) (ft : Option (Tool α))
    (h : ∀ t ∈ l, t.isSupported o = false) :
    pickList o lt l ft = ft := by
  induction l generalizing ft with
  | nil => rfl
  | cons t ts ih =>
    unfold pickList
    rw [if_neg (by simp [h t (List.mem_cons_self t ts)])]
    exact ih ft fun t2 h2 => h t2 (List.mem_cons_of_mem t h2)

theorem pickList_keep_match (o : α) (lt : Option String) (l : List (Tool α))
    (t0 : Tool α) (hm : some t0.tabName = lt) :
    ∃ t1, pickList o lt l (some t0) = some t1 ∧ some t1.tabName = lt := by
  induction l generalizing t0 with
  | nil => exact ⟨t0, rfl, hm⟩
  | cons t ts ih =>
    unfold pickList
    cases hsup : t.isSupported o with
    | false =>
      rw [if_neg (by simp)]
      exact ih t0 hm
    | true =>
      rw [if_pos rfl]
      unfold pickFirst
      by_cases hm2 : some t.tabName = lt
      · rw [if_pos hm2]
        exact ih t hm2
      · rw [if_neg hm2, if_neg (by simp)]
        exact ih t0 hm

theorem pickList_exists_match (o : α) (lt : Option String) (l : List (Tool α))
    (ft : Option (Tool α))
    (hm : ∃ t ∈ l, t.isSupported o = true ∧ some t.tabName = lt) :
    ∃ t1, pickList o lt l ft = some t1 ∧ some t1.tabName = lt := by
  induction l generalizing ft with
  | nil => simp at hm
  | cons t ts ih =>
    obtain ⟨t2, ht2, hsup2, hmatch2⟩ := hm
    rcases List.mem_cons.mp ht2 with rfl | htail
    · unfold pickList
      rw [if_pos hsup2]
      unfold pickFirst
      rw [if_pos hmatch2]
      exact pickList_keep_match o lt ts t2 hmatch2
    · unfold pickList
      cases hsup : t.isSupported o with
      | false =>
        rw [if_neg (by simp)]
        exact ih ft ⟨t2, htail, hsup2, hmatch2⟩
      | true =>
        rw [if_pos rfl]
        exact ih _ ⟨t2, htail, hsup2, hmatch2⟩

theorem pickList_keep_nomatch (o : α) (lt : Option String) (l : List (Tool α))
    (t0 : Tool α)
    (hno : ∀ t ∈ l, t.isSupported o = true → some t.tabName ≠ lt) :
    pickList o lt l (some t0) = some t0 := by
  induction l with
  | nil => rfl
  | cons t ts ih =>
    unfold pickList
    cases hsup : t.isSupported o with
    | false =>
      rw [if_neg (by simp)]
      exact ih fun t2 h2 => hno t2 (List.mem_cons_of_mem t h2)
    | true =>
      rw [if_pos rfl]
      unfold pickFirst
      rw [if_neg (hno t (List.mem_cons_self t ts) hsup), if_neg (by simp)]
      exact ih fun t2 h2 => hno t2 (List.mem_cons_of_mem t h2)

theorem pickList_nomatch_find (o : α) (lt : Option String) (l : List (Tool α))
    (hno : ∀ t ∈ l, t.isSupported o = true → some t.tabName ≠ lt) :
    pickList o lt l none = l.find? (fun t => t.isSupported o) := by
  induction l with
  | nil => rfl
  | cons t ts ih =>
    unfold pickList
    cases hsup : t.isSupported o with
    | false =>
      rw [if_neg (by simp), List.find?_cons_of_neg _ (by simp [hsup])]
      exact ih fun t2 h2 => hno t2 (List.mem_cons_of_mem t h2)
    | true =>
      rw [if_pos rfl, List.find?_cons_of_pos _ (by simp [hsup])]
      unfold pickFirst
      rw [if_neg (hno t (List.mem_cons_self t ts) hsup)]
      exact pickList_keep_nomatch o lt ts t
        fun t2 h2 => hno t2 (List.mem_cons_of_mem t h2)

theorem pickList_mem (o : α) (lt : Option String) (l : List (Tool α))
    (ft : Option (Tool α)) (t1 : Tool α)
    (h : pickList o lt l ft = some t1) :
    (t1 ∈ l ∧ t1.isSupported o = true) ∨ ft = some t1 := by
  induction l generalizing ft with
  | nil => exact Or.inr h
  | cons t ts ih =>
    unfold pickList at h
    cases hsup : t.isSupported o with
    | false =>
      rw [if_neg (by simp [hsup])] at h
      rcases ih ft h with ⟨hmem, hs⟩ | hr
      · exact Or.inl ⟨List.mem_cons_of_mem t hmem, hs⟩
      · exact Or.inr hr
    | true =>
      rw [if_pos hsup] at h
      rcases ih (pickFirst lt ft t) h with ⟨hmem, hs⟩ | hr
      · exact Or.inl ⟨List.mem_cons_of_mem t hmem, hs⟩
      · unfold pickFirst at hr
        by_cases hm2 : some t.tabName = lt
        · rw [if_pos hm2] at hr
          cases hr
          exact Or.inl ⟨List.mem_cons_self _ _, hsup⟩
        · rw [if_neg hm2] at hr
          cases hft : ft.isNone with
          | true =>
            rw [hft, if_pos rfl] at hr
            cases hr
            exact Or.inl ⟨List.mem_cons_self _ _, hsup⟩
          | false =>
            rw [hft] at hr
            rw [if_neg (by simp)] at hr
            exact Or.inr hr

theorem pickList_none_unsupported (o : α) (lt : Option String)
    (l : List (Tool α)) (h : pickList o lt l none = none) :
    ∀ t ∈ l, t.isSupported o = false := by
  intro t ht
  by_contra hc
  have hsup : t.isSupported o = true := by
    cases h2 : t.isSupported o with
    | true => rfl
    | false => exact absurd h2 hc
  by_cases hm : ∃ t2 ∈ l, t2.isSupported o = true ∧ some t2.tabName = lt
  · obtain ⟨t1, h1, _⟩ := pickList_exists_match o lt l none hm
    rw [h] at h1
    cases h1
  · push_neg at hm
    have h2 := pickList_nomatch_find o lt l
      fun t2 ht2 hs2 => hm t2 ht2 hs2
    rw [h] at h2
    have h3 : (l.find? (fun t => t.isSupported o)).isSome = true :=
      List.find?_isSome.mpr ⟨t, ht, by simp [hsup]⟩
    rw [← h2] at h3
    cases h3

theorem setObjectAux_tabs_untouched (o : α) (lt : Option String) (k : String) :
    ∀ (l : List (Tool α)) (st : EditionState α) (ft : Option (Tool α)),
    (∀ t ∈ l, t.tabName ≠ k) →
    (k ∈ (setObjectAux o lt l st ft).1.shownTabs ↔ k ∈ st.shownTabs)
  | [], st, ft, h => Iff.rfl
  | t :: ts, st, ft, h => by
    unfold setObjectAux
    cases hsup : t.isSupported o with
    | true =>
      rw [if_pos rfl]
      refine Iff.trans (setObjectAux_tabs_untouched o lt k ts _ _
        fun t2 h2 => h t2 (List.mem_cons_of_mem t h2)) ?_
      simp only [stepSupported]
      rw [mem_showKey]
      simp [Ne.symm (h t (List.mem_cons_self t ts))]
    | false =>
      rw [if_neg (by simp)]
      refine Iff.trans (setObjectAux_tabs_untouched o lt k ts _ _
        fun t2 h2 => h t2 (List.mem_cons_of_mem t h2)) ?_
      simp only [stepUnsupported]
      rw [mem_hideKey]
      simp [Ne.symm (h t (List.mem_cons_self t ts))]

theorem setObjectAux_divs_untouched (o : α) (lt : Option String) (d : String) :
    ∀ (l : List (Tool α)) (st : EditionState α) (ft : Option (Tool α)),
    (∀ t ∈ l, t.divId ≠ d) →
    (d ∈ (setObjectAux o lt l st ft).1.shownDivs ↔ d ∈ st.shownDivs)
  | [], st, ft, h => Iff.rfl
  | t :: ts, st, ft, h => by
    unfold setObjectAux
    cases hsup : t.isSupported o with
    | true =>
      rw [if_pos rfl]
      refine Iff.trans (setObjectAux_divs_untouched o lt d ts _ _
        fun t2 h2 => h t2 (List.mem_cons_of_mem t h2)) ?_
      simp only [stepSupported]
      rw [mem_showKey]
      simp [Ne.symm (h t (List.mem_cons_self t ts))]
    | false =>
      rw [if_neg (by simp)]
      refine Iff.trans (setObjectAux_divs_untouched o lt d ts _ _
        fun t2 h2 => h t2 (List.mem_cons_of_mem t h2)) ?_
      simp only [stepUnsupported]
      rw [mem_hideKey]
      simp [Ne.symm (h t (List.mem_cons_self t ts))]

theorem setObjectAux_tabs_congr (o : α) (k : String) :
    ∀ (l : List (Tool α)) (lt lt2 : Option String)
      (st st2 : EditionState α) (ft ft2 : Option (Tool α)),
    (k ∈ st.shownTabs ↔ k ∈ st2.shownTabs) →
    (k ∈ (setObjectAux o lt l st ft).1.shownTabs ↔
      k ∈ (setObjectAux o lt2 l st2 ft2).1.shownTabs)
  | [], lt, lt2, st, st2, ft, ft2, h => h
  | t :: ts, lt, lt2, st, st2, ft, ft2, h => by
    unfold setObjectAux
    cases hsup : t.isSupported o with
    | true =>
      rw [if_pos rfl, if_pos rfl]
      refine setObjectAux_tabs_congr o k ts lt lt2 _ _ _ _ ?_
      simp only [stepSupported]
      rw [mem_showKey, mem_showKey, h]
    | false =>
      rw [if_neg (by simp), if_neg (by simp)]
      refine setObjectAux_tabs_congr o k ts lt lt2 _ _ _ _ ?_
      simp only [stepUnsupported]
      rw [mem_hideKey, mem_hideKey, h]

theorem setObjectAux_divs_congr (o : α) (d : String) :
    ∀ (l : List (Tool α)) (lt lt2 : Option String)
      (st st2 : EditionState α) (ft ft2 : Option (Tool α)),
    (d ∈ st.shownDivs ↔ d ∈ st2.shownDivs) →
    (d ∈ (setObjectAux o lt l st ft).1.shownDivs ↔
      d ∈ (setObjectAux o lt2 l st2 ft2).1.shownDivs)
  | [], lt, lt2, st, st2, ft, ft2, h => h
  | t :: ts, lt, lt2, st, st2, ft, ft2, h => by
    unfold setObjectAux
    cases hsup : t.isSupported o with
    | true =>
      rw [if_pos rfl, if_pos rfl]
      refine setObjectAux_divs_congr o d ts lt lt2 _ _ _ _ ?_
      simp only [stepSupported]
      rw [mem_showKey, mem_showKey, h]
    | false =>
      rw [if_neg (by simp), if_neg (by simp)]
      refine setObjectAux_divs_congr o d ts lt lt2 _ _ _ _ ?_
      simp only [stepUnsupported]
      rw [mem_hideKey, mem_hideKey, h]

theorem setObjectAux_tabs_touched (o : α) (k : String) :
    ∀ (l : List (Tool α)) (lt lt2 : Option String)
      (st st2 : EditionState α) (ft ft2 : Option (Tool α)),
    (∃ t ∈ l, t.tabName = k) →
    (k ∈ (setObjectAux o lt l st ft).1.shownTabs ↔
      k ∈ (setObjectAux o lt2 l st2 ft2).1.shownTabs)
  | [], lt, lt2, st, st2, ft, ft2, hex => by simp at hex
  | t :: ts, lt, lt2, st, st2, ft, ft2, hex => by
    by_cases htail : ∃ t2 ∈ ts, t2.tabName = k
    · unfold setObjectAux
      cases hsup : t.isSupported o with
      | true =>
        rw [if_pos rfl, if_pos rfl]
        exact setObjectAux_tabs_touched o k ts lt lt2 _ _ _ _ htail
      | false =>
        rw [if_neg (by simp), if_neg (by simp)]
        exact setObjectAux_tabs_touched o k ts lt lt2 _ _ _ _ htail
    · obtain ⟨t2, ht2, hk⟩ := hex
      have hhead : t.tabName = k := by
        rcases List.mem_cons.mp ht2 with rfl | hmem
        · exact hk
        · exact absurd ⟨t2, hmem, hk⟩ htail
      unfold setObjectAux
      cases hsup : t.isSupported o with
      | true =>
        rw [if_pos rfl, if_pos rfl]
        refine setObjectAux_tabs_congr o k ts lt lt2 _ _ _ _ ?_
        simp only [stepSupported]
        rw [mem_showKey, mem_showKey]
        simp [hhead]
      | false =>
        rw [if_neg (by simp), if_neg (by simp)]
        refine setObjectAux_tabs_congr o k ts lt lt2 _ _ _ _ ?_
        simp only [stepUnsupported]
        rw [mem_hideKey, mem_hideKey]
        simp [hhead]

theorem setObjectAux_divs_touched (o : α) (d : String) :
    ∀ (l : List (Tool α)) (lt lt2 : Option String)
      (st st2 : EditionState α) (ft ft2 : Option (Tool α)),
    (∃ t ∈ l, t.divId = d) →
    (d ∈ (setObjectAux o lt l st ft).1.shownDivs ↔
      d ∈ (setObjectAux o lt2 l st2 ft2).1.shownDivs)
  | [], lt, lt2, st, st2, ft, ft2, hex => by simp at hex
  | t :: ts, lt, lt2, st, st2, ft, ft2, hex => by
    by_cases htail : ∃ t2 ∈ ts, t2.divId = d
    · unfold setObjectAux
      cases hsup : t.isSupported o with
      | true =>
        rw [if_pos rfl, if_pos rfl]
        exact setObjectAux_divs_touched o d ts lt lt2 _ _ _ _ htail
      | false =>
        rw [if_neg (by simp), if_neg (by simp)]
        exact setObjectAux_divs_touched o d ts lt lt2 _ _ _ _ htail
    · obtain ⟨t2, ht2, hk⟩ := hex
      have hhead : t.divId = d := by
        rcases List.mem_cons.mp ht2 with rfl | hmem
        · exact hk
        · exact absurd ⟨t2, hmem, hk⟩ htail
      unfold setObjectAux
      cases hsup : t.isSupported o with
      | true =>
        rw [if_pos rfl, if_pos rfl]
        refine setObjectAux_divs_congr o d ts lt lt2 _ _ _ _ ?_
        simp only [stepSupported]
        rw [mem_showKey, mem_showKey]
        simp [hhead]
      | false =>
        rw [if_neg (by simp), if_neg (by simp)]
        refine setObjectAux_divs_congr o d ts lt lt2 _ _ _ _ ?_
        simp only [stepUnsupported]
        rw [mem_hideKey, mem_hideKey]
        simp [hhead]

theorem setObjectAux_tabs_nodup (o : α) (lt : Option String) :
    ∀ (l : List (Tool α)) (st : EditionState α) (ft : Option (Tool α)),
    (l.map Tool.tabName).Nodup → ∀ t ∈ l,
    (t.tabName ∈ (setObjectAux o lt l st ft).1.shownTabs ↔ t.isSupported o = true)
  | [], st, ft, hn, t, ht => by simp at ht
  | t2 :: ts, st, ft, hn, t, ht => by
    obtain ⟨hhead, htail⟩ :
        (∀ x ∈ ts, ¬x.tabName = t2.tabName) ∧
          (List.map Tool.tabName ts).Nodup := by simpa using hn
    rcases List.mem_cons.mp ht with rfl | hmem
    · unfold setObjectAux
      have hne : ∀ t3 ∈ ts, t3.tabName ≠ t.tabName := fun t3 h3 => hhead t3 h3
      cases hsup : t.isSupported o with
      | true =>
        rw [if_pos rfl]
        rw [setObjectAux_tabs_untouched o lt t.tabName ts _ _ hne]
        simp [stepSupported, mem_showKey]
      | false =>
        rw [if_neg (by simp)]
        rw [setObjectAux_tabs_untouched o lt t.tabName ts _ _ hne]
        simp [stepUnsupported, mem_hideKey]
    · unfold setObjectAux
      cases hsup : t2.isSupported o with
      | true =>
        rw [if_pos rfl]
        exact setObjectAux_tabs_nodup o lt ts _ _ htail t hmem
      | false =>
        rw [if_neg (by simp)]
        exact setObjectAux_tabs_nodup o lt ts _ _ htail t hmem

theorem setObjectAux_divs_nodup (o : α) (lt : Option String) :
    ∀ (l : List (Tool α)) (st : EditionState α) (ft : Option (Tool α)),
    (l.map Tool.divId).Nodup → ∀ t ∈ l,
    (t.divId ∈ (setObjectAux o lt l st ft).1.shownDivs ↔ t.isSupported o = true)
  | [], st, ft, hn, t, ht => by simp at ht
  | t2 :: ts, st, ft, hn, t, ht => by
    obtain ⟨hhead, htail⟩ :
        (∀ x ∈ ts, ¬x.divId = t2.divId) ∧
          (List.map Tool.divId ts).Nodup := by simpa using hn
    rcases List.mem_cons.mp ht with rfl | hmem
    · unfold setObjectAux
      have hne : ∀ t3 ∈ ts, t3.divId ≠ t.divId := fun t3 h3 => hhead t3 h3
      cases hsup : t.isSupported o with
      | true =>
        rw [if_pos rfl]
        rw [setObjectAux_divs_untouched o lt t.divId ts _ _ hne]
        simp [stepSupported, mem_showKey]
      | false =>
        rw [if_neg (by simp)]
        rw [setObjectAux_divs_untouched o lt t.divId ts _ _ hne]
        simp [stepUnsupported, mem_hideKey]
    · unfold setObjectAux
      cases hsup : t2.isSupported o with
      | true =>
        rw [if_pos rfl]
        exact setObjectAux_divs_nodup o lt ts _ _ htail t hmem
      | false =>
        rw [if_neg (by simp)]
        exact setObjectAux_divs_nodup o lt ts _ _ htail t hmem

theorem setObjectAux_handlers_mono (o : α) (lt : Option String) (d : String) :
    ∀ (l : List (Tool α)) (st : EditionState α) (ft : Option (Tool α)),
    d ∈ st.handlers → d ∈ (setObjectAux o lt l st ft).1.handlers
  | [], st, ft, h => h
  | t :: ts, st, ft, h => by
    unfold setObjectAux
    cases hsup : t.isSupported o with
    | true =>
      rw [if_pos rfl]
      exact setObjectAux_handlers_mono o lt d ts _ _
        (by simpa [stepSupported, mem_showKey] using Or.inr h)
    | false =>
      rw [if_neg (by simp)]
      exact setObjectAux_handlers_mono o lt d ts _ _ h

theorem setObjectAux_handlers_of_supported (o : α) (lt : Option String) :
    ∀ (l : List (Tool α)) (st : EditionState α) (ft : Option (Tool α)),
    ∀ t ∈ l, t.isSupported o = true →
    t.divId ∈ (setObjectAux o lt l st ft).1.handlers
  | [], st, ft, t, ht, hs => by simp at ht
  | t2 :: ts, st, ft, t, ht, hs => by
    rcases List.mem_cons.mp ht with rfl | hmem
    · unfold setObjectAux
      rw [if_pos hs]
      exact setObjectAux_handlers_mono o lt t.divId ts _ _
        (by simp [stepSupported, mem_showKey])
    · unfold setObjectAux
      cases hsup : t2.isSupported o with
      | true =>
        rw [if_pos rfl]
        exact setObjectAux_handlers_of_supported o lt ts _ _ t hmem hs
      | false =>
        rw [if_neg (by simp)]
        exact setObjectAux_handlers_of_supported o lt ts _ _ t hmem hs

theorem setObjectAux_lookup_or (o : α) (lt : Option String) (d : String) :
    ∀ (l : List (Tool α)) (st : EditionState α) (ft : Option (Tool α)),
    (setObjectAux o lt l st ft).1.toolObjects.lookup d = some o ∨
    (setObjectAux o lt l st ft).1.toolObjects.lookup d = st.toolObjects.lookup d
  | [], st, ft => Or.inr rfl
  | t :: ts, st, ft => by
    unfold setObjectAux
    cases hsup : t.isSupported o with
    | false =>
      rw [if_neg (by simp)]
      exact setObjectAux_lookup_or o lt d ts _ _
    | true =>
      rw [if_pos rfl]
      rcases setObjectAux_lookup_or o lt d ts (stepSupported o st t)
        (pickFirst lt ft t) with h | h
      · exact Or.inl h
      · rw [h]
        simp only [stepSupported, List.lookup]
        cases hbe : d == t.divId with
        | true => exact Or.inl rfl
        | false => exact Or.inr rfl

theorem setObjectAux_lookup_of_supported (o : α) (lt : Option String) :
    ∀ (l : List (Tool α)) (st : EditionState α) (ft : Option (Tool α)),
    ∀ t ∈ l, t.isSupported o = true →
    (setObjectAux o lt l st ft).1.toolObjects.lookup t.divId = some o
  | [], st, ft, t, ht, hs => by simp at ht
  | t2 :: ts, st, ft, t, ht, hs => by
    rcases List.mem_cons.mp ht with rfl | hmem
    · unfold setObjectAux
      rw [if_pos hs]
      rcases setObjectAux_lookup_or o lt t.divId ts (stepSupported o st t)
        (pickFirst lt ft t) with h | h
      · exact h
      · rw [h]
        simp [stepSupported, List.lookup]
    · unfold setObjectAux
      cases hsup : t2.isSupported o with
      | true =>
        rw [if_pos rfl]
        exact setObjectAux_lookup_of_supported o lt ts _ _ t hmem hs
      | false =>
        rw [if_neg (by simp)]
        exact setObjectAux_lookup_of_supported o lt ts _ _ t hmem hs

theorem changeTabStep_fields (tg : String) (st : EditionState α) (t : Tool α) :
    (changeTabStep tg st t).tools = st.tools ∧
    (changeTabStep tg st t).currentTools = st.currentTools ∧
    (changeTabStep tg st t).shownTabs = st.shownTabs ∧
    (changeTabStep tg st t).handlers = st.handlers ∧
    (changeTabStep tg st t).toolObjects = st.toolObjects ∧
    (changeTabStep tg st t).currentObject = st.currentObject := by
  unfold changeTabStep
  by_cases h : t.tabName = tg
  · rw [if_pos h]; exact ⟨rfl, rfl, rfl, rfl, rfl, rfl⟩
  · rw [if_neg h]; exact ⟨rfl, rfl, rfl, rfl, rfl, rfl⟩

theorem changeTabAux_preserves (tg : String) :
    ∀ (l : List (Tool α)) (st : EditionState α),
    (changeTabAux tg l st).tools = st.tools ∧
    (changeTabAux tg l st).currentTools = st.currentTools ∧
    (changeTabAux tg l st).shownTabs = st.shownTabs ∧
    (changeTabAux tg l st).handlers = st.handlers ∧
    (changeTabAux tg l st).toolObjects = st.toolObjects ∧
    (changeTabAux tg l st).currentObject = st.currentObject
  | [], st => ⟨rfl, rfl, rfl, rfl, rfl, rfl⟩
  | t :: ts, st => by
    have ih := changeTabAux_preserves tg ts (changeTabStep tg st t)
    have hs := changeTabStep_fields tg st t
    unfold changeTabAux
    exact ⟨ih.1.trans hs.1, ih.2.1.trans hs.2.1, ih.2.2.1.trans hs.2.2.1,
           ih.2.2.2.1.trans hs.2.2.2.1, ih.2.2.2.2.1.trans hs.2.2.2.2.1,
           ih.2.2.2.2.2.trans hs.2.2.2.2.2⟩

theorem changeTabAux_lastTabName (tg : String) :
    ∀ (l : List (Tool α)) (st : EditionState α),
    (changeTabAux tg l st).lastTabName =
      if ∃ t ∈ l, t.tabName = tg then some tg else st.lastTabName
  | [], st => by simp [changeTabAux]
  | t :: ts, st => by
    unfold changeTabAux
    rw [changeTabAux_lastTabName tg ts _]
    by_cases hex : ∃ t2 ∈ ts, t2.tabName = tg
    · rw [if_pos hex, if_pos ?_]
      obtain ⟨t2, h2, hk⟩ := hex
      exact ⟨t2, List.mem_cons_of_mem t h2, hk⟩
    · rw [if_neg hex]
      by_cases hh : t.tabName = tg
      · rw [if_pos ⟨t, List.mem_cons_self t ts, hh⟩]
        unfold changeTabStep
        rw [if_pos hh]
      · rw [if_neg ?_]
        · unfold changeTabStep
          rw [if_neg hh]
        · rintro ⟨t2, h2, hk⟩
          rcases List.mem_cons.mp h2 with rfl | hmem
          · exact hh hk
          · exact hex ⟨t2, hmem, hk⟩

theorem changeTabAux_divs_untouched (tg : String) (d : String) :
    ∀ (l : List (Tool α)) (st : EditionState α),
    (∀ t ∈ l, t.divId ≠ d) →
    (d ∈ (changeTabAux tg l st).shownDivs ↔ d ∈ st.shownDivs)
  | [], st, h => Iff.rfl
  | t :: ts, st, h => by
    unfold changeTabAux
    refine Iff.trans (changeTabAux_divs_untouched tg d ts _
      fun t2 h2 => h t2 (List.mem_cons_of_mem t h2)) ?_
    have hne : d ≠ t.divId := Ne.symm (h t (List.mem_cons_self t ts))
    unfold changeTabStep
    by_cases hh : t.tabName = tg
    · rw [if_pos hh]
      simp only
      rw [mem_showKey]
      simp [hne]
    · rw [if_neg hh]
      simp only
      rw [mem_hideKey]
      simp [hne]

theorem changeTabAux_divs_congr (tg : String) (d : String) :
    ∀ (l : List (Tool α)) (st st2 : EditionState α),
    (d ∈ st.shownDivs ↔ d ∈ st2.shownDivs) →
    (d ∈ (changeTabAux tg l st).shownDivs ↔
      d ∈ (changeTabAux tg l st2).shownDivs)
  | [], st, st2, h => h
  | t :: ts, st, st2, h => by
    unfold changeTabAux
    refine changeTabAux_divs_congr tg d ts _ _ ?_
    unfold changeTabStep
    by_cases hh : t.tabName = tg
    · rw [if_pos hh, if_pos hh]
      simp only
      rw [mem_showKey, mem_showKey, h]
    · rw [if_neg hh, if_neg hh]
      simp only
      rw [mem_hideKey, mem_hideKey, h]

theorem changeTabAux_divs_touched (tg : String) (d : String) :
    ∀ (l : List (Tool α)) (st st2 : EditionState α),
    (∃ t ∈ l, t.divId = d) →
    (d ∈ (changeTabAux tg l st).shownDivs ↔
      d ∈ (changeTabAux tg l st2).shownDivs)
  | [], st, st2, hex => by simp at hex
  | t :: ts, st, st2, hex => by
    by_cases htail : ∃ t2 ∈ ts, t2.divId = d
    · unfold changeTabAux
      exact changeTabAux_divs_touched tg d ts _ _ htail
    · obtain ⟨t2, ht2, hk⟩ := hex
      have hhead : t.divId = d := by
        rcases List.mem_cons.mp ht2 with rfl | hmem
        · exact hk
        · exact absurd ⟨t2, hmem, hk⟩ htail
      unfold changeTabAux
      refine changeTabAux_divs_congr tg d ts _ _ ?_
      unfold changeTabStep
      by_cases hh : t.tabName = tg
      · rw [if_pos hh, if_pos hh]
        simp only
        rw [mem_showKey, mem_showKey]
        simp [hhead]
      · rw [if_neg hh, if_neg hh]
        simp only
        rw [mem_hideKey, mem_hideKey]
        simp [hhead]

theorem changeTabAux_divs_nodup (tg : String) :
    ∀ (l : List (Tool α)) (st : EditionState α),
    (l.map Tool.divId).Nodup → ∀ t ∈ l,
    (t.divId ∈ (changeTabAux tg l st).shownDivs ↔ t.tabName = tg)
  | [], st, hn, t, ht => by simp at ht
  | t2 :: ts, st, hn, t, ht => by
    obtain ⟨hhead, htail⟩ :
        (∀ x ∈ ts, ¬x.divId = t2.divId) ∧
          (List.map Tool.divId ts).Nodup := by simpa using hn
    rcases List.mem_cons.mp ht with rfl | hmem
    · unfold changeTabAux
      rw [changeTabAux_divs_untouched tg t.divId ts _
        fun t3 h3 => hhead t3 h3]
      unfold changeTabStep
      by_cases hh : t.tabName = tg
      · rw [if_pos hh]
        simp only
        rw [mem_showKey]
        simp [hh]
      · rw [if_neg hh]
        simp only
        rw [mem_hideKey]
        simp [hh]
    · unfold changeTabAux
      exact changeTabAux_divs_nodup tg ts _ htail t hmem

theorem setObject_tools (s : EditionState α) (o : α) :
    (setObject s o).tools = s.tools := by
  simp only [setObject]
  cases hp : (setObjectAux o s.lastTabName s.tools
      { s with currentTools := [] } none).2 with
  | none => exact setObjectAux_tools o s.lastTabName s.tools _ none
  | some t1 =>
    simp only [changeTab]
    rw [(changeTabAux_preserves t1.tabName _ _).1]
    exact setObjectAux_tools o s.lastTabName s.tools _ none

theorem setObject_currentTools (s : EditionState α) (o : α) :
    (setObject s o).currentTools = s.tools.filter (fun t => t.isSupported o) := by
  simp only [setObject]
  cases hp : (setObjectAux o s.lastTabName s.tools
      { s with currentTools := [] } none).2 with
  | none =>
    rw [setObjectAux_currentTools o s.lastTabName s.tools _ none]
    rfl
  | some t1 =>
    simp only [changeTab]
    rw [(changeTabAux_preserves t1.tabName _ _).2.1,
      setObjectAux_currentTools o s.lastTabName s.tools _ none]
    rfl

theorem setObject_currentObject (s : EditionState α) (o : α) :
    (setObject s o).currentObject = o := by
  simp only [setObject]

theorem setObject_shownTabs_mem (s : EditionState α) (o : α) (k : String) :
    (k ∈ (setObject s o).shownTabs ↔
      k ∈ (setObjectAux o s.lastTabName s.tools
        { s with currentTools := [] } none).1.shownTabs) := by
  simp only [setObject]
  cases hp : (setObjectAux o s.lastTabName s.tools
      { s with currentTools := [] } none).2 with
  | none => exact Iff.rfl
  | some t1 =>
    simp only [changeTab]
    rw [(changeTabAux_preserves t1.tabName _ _).2.2.1]

theorem setObject_handlers_mem (s : EditionState α) (o : α) (d : String) :
    (d ∈ (setObject s o).handlers ↔
      d ∈ (setObjectAux o s.lastTabName s.tools
        { s with currentTools := [] } none).1.handlers) := by
  simp only [setObject]
  cases hp : (setObjectAux o s.lastTabName s.tools
      { s with currentTools := [] } none).2 with
  | none => exact Iff.rfl
  | some t1 =>
    simp only [changeTab]
    rw [(changeTabAux_preserves t1.tabName _ _).2.2.2.1]

theorem setObject_toolObjects (s : EditionState α) (o : α) :
    (setObject s o).toolObjects =
      (setObjectAux o s.lastTabName s.tools
        { s with currentTools := [] } none).1.toolObjects := by
  simp only [setObject]
  cases hp : (setObjectAux o s.lastTabName s.tools
      { s with currentTools := [] } none).2 with
  | none => rfl
  | some t1 =>
    simp only [changeTab]
    rw [(changeTabAux_preserves t1.tabName _ _).2.2.2.2.1]

theorem setObject_lastTabName_some (s : EditionState α) (o : α) (t1 : Tool α)
    (hp : (setObjectAux o s.lastTabName s.tools
      { s with currentTools := [] } none).2 = some t1) :
    (setObject s o).lastTabName = some t1.tabName := by
  have hmem : t1 ∈ s.tools ∧ t1.isSupported o = true := by
    rw [setObjectAux_snd] at hp
    rcases pickList_mem o s.lastTabName s.tools none t1 hp with h | h
    · exact h
    · cases h
  simp only [setObject]
  rw [hp]
  simp only
  simp only [changeTab]
  rw [(setObjectAux_tools o s.lastTabName s.tools _ none :
      (setObjectAux o s.lastTabName s.tools
        { s with currentTools := [] } none).1.tools = _),
    changeTabAux_lastTabName]
  rw [if_pos ⟨t1, hmem.1, rfl⟩]

theorem setObject_lastTabName_none (s : EditionState α) (o : α)
    (hp : (setObjectAux o s.lastTabName s.tools
      { s with currentTools := [] } none).2 = none) :
    (setObject s o).lastTabName = s.lastTabName := by
  simp only [setObject]
  rw [hp]
  simp only
  exact setObjectAux_lastTabName o s.lastTabName s.tools _ none

theorem setObject_shownDivs_none (s : EditionState α) (o : α)
    (hp : (setObjectAux o s.lastTabName s.tools
      { s with currentTools := [] } none).2 = none) (d : String) :
    (d ∈ (setObject s o).shownDivs ↔
      d ∈ (setObjectAux o s.lastTabName s.tools
        { s with currentTools := [] } none).1.shownDivs) := by
  simp only [setObject]
  rw [hp]

theorem setObject_shownDivs_some (s : EditionState α) (o : α) (t1 : Tool α)
    (hp : (setObjectAux o s.lastTabName s.tools
      { s with currentTools := [] } none).2 = some t1) :
    (setObject s o).shownDivs =
      (changeTabAux t1.tabName s.tools
        (setObjectAux o s.lastTabName s.tools
          { s with currentTools := [] } none).1).shownDivs := by
  simp only [setObject]
  rw [hp]
  simp only
  simp only [changeTab]
  rw [(setObjectAux_tools o s.lastTabName s.tools _ none :
      (setObjectAux o s.lastTabName s.tools
        { s with currentTools := [] } none).1.tools = _)]

/-- C1: for every object given to `setObject` for which at least one tool's
`isSupported` is true, the tab made active (via `changeTab`) is the tab whose
name equals `lastTabName` when a supported tool carries it, and otherwise the
tab of the first supported tool in registration order; when no tool supports
the object, no tab change occurs and `lastTabName` is unchanged. -/
theorem setObject_activeTab (s : EditionState α) (o : α) :
    ((setObjectAux o s.lastTabName s.tools
        { s with currentTools := [] } none).2.map Tool.tabName =
      if ∃ t ∈ s.tools, t.isSupported o = true ∧ some t.tabName = s.lastTabName
      then s.lastTabName
      else (s.tools.find? (fun t => t.isSupported o)).map Tool.tabName) ∧
    ((setObject s o).lastTabName =
      if ∃ t ∈ s.tools, t.isSupported o = true ∧ some t.tabName = s.lastTabName
      then s.lastTabName
      else
        match s.tools.find? (fun t => t.isSupported o) with
        | some t1 => some t1.tabName
        | none => s.lastTabName) := by
  rw [setObjectAux_snd]
  by_cases hm : ∃ t ∈ s.tools, t.isSupported o = true ∧ some t.tabName = s.lastTabName
  · rw [if_pos hm, if_pos hm]
    obtain ⟨t1, hp1, hmatch⟩ := pickList_exists_match o s.lastTabName s.tools none hm
    constructor
    · rw [hp1]
      simpa using hmatch
    · rw [setObject_lastTabName_some s o t1 (by rw [setObjectAux_snd]; exact hp1)]
      exact hmatch
  · rw [if_neg hm, if_neg hm]
    have hno : ∀ t ∈ s.tools, t.isSupported o = true → some t.tabName ≠ s.lastTabName := by
      intro t ht hs he
      exact hm ⟨t, ht, hs, he⟩
    have hfind := pickList_nomatch_find o s.lastTabName s.tools hno
    constructor
    · rw [hfind]
    · cases hf : s.tools.find? (fun t => t.isSupported o) with
      | some t1 =>
        rw [setObject_lastTabName_some s o t1
          (by rw [setObjectAux_snd]; exact hfind.trans hf)]
      | none =>
        rw [setObject_lastTabName_none s o
          (by rw [setObjectAux_snd]; exact hfind.trans hf)]

/-- C2: after `setObject`, a tool's tab is shown and the tool appears in
`currentTools` exactly when `isSupported(object)` was true; `currentTools`
lists the supported tools in registration order; the tabs and containers of
unsupported tools are hidden.  The registered tools are assumed to carry
pairwise-distinct tab names and container div ids, one panel per tool. -/
theorem setObject_supported_tools (s : EditionState α) (o : α)
    (hnt : (s.tools.map Tool.tabName).Nodup)
    (hnd : (s.tools.map Tool.divId).Nodup) :
    (setObject s o).currentTools = s.tools.filter (fun t => t.isSupported o) ∧
    (∀ t ∈ s.tools,
      (t.isSupported o = true →
        t.tabName ∈ (setObject s o).shownTabs ∧ t ∈ (setObject s o).currentTools) ∧
      (t.isSupported o = false →
        t.tabName ∉ (setObject s o).shownTabs ∧ t ∉ (setObject s o).currentTools ∧
        t.divId ∉ (setObject s o).shownDivs)) := by
  refine ⟨setObject_currentTools s o, ?_⟩
  intro t ht
  constructor
  · intro hs
    constructor
    · rw [setObject_shownTabs_mem]
      exact (setObjectAux_tabs_nodup o s.lastTabName s.tools _ none hnt t ht).mpr hs
    · rw [setObject_currentTools]
      exact List.mem_filter.mpr ⟨ht, by simp [hs]⟩
  · intro hs
    refine ⟨?_, ?_, ?_⟩
    · rw [setObject_shownTabs_mem]
      intro hmem
      have h2 := (setObjectAux_tabs_nodup o s.lastTabName s.tools _ none hnt t ht).mp hmem
      rw [hs] at h2
      cases h2
    · rw [setObject_currentTools]
      intro hmem
      have h2 : t.isSupported o = true := by
        simpa using (List.mem_filter.mp hmem).2
      rw [hs] at h2
      cases h2
    · cases hp : (setObjectAux o s.lastTabName s.tools
          { s with currentTools := [] } none).2 with
      | none =>
        rw [setObject_shownDivs_none s o hp]
        intro hmem
        have h2 := (setObjectAux_divs_nodup o s.lastTabName s.tools _ none hnd t ht).mp hmem
        rw [hs] at h2
        cases h2
      | some t1 =>
        rw [setObject_shownDivs_some s o t1 hp]
        intro hmem
        have heq : t.tabName = t1.tabName :=
          (changeTabAux_divs_nodup t1.tabName s.tools _ hnd t ht).mp hmem
        have hm1 : t1 ∈ s.tools ∧ t1.isSupported o = true := by
          rw [setObjectAux_snd] at hp
          rcases pickList_mem o s.lastTabName s.tools none t1 hp with h | h
          · exact h
          · cases h
        have het : t = t1 := List.inj_on_of_nodup_map hnt ht hm1.1 heq
        rw [het, hm1.2] at hs
        cases hs

def c2ToolScene : Tool Nat :=
  { divId := "SCENE-TOOL", tabName := "SCENE", isSupported := fun _ => true }

def c2ToolNode : Tool Nat :=
  { divId := "NODE-TOOL", tabName := "NODE", isSupported := fun n => decide (n = 1) }

def c2ToolLight : Tool Nat :=
  { divId := "LIGHT-TOOL", tabName := "LIGHT", isSupported := fun n => decide (n = 2) }

def c2State : EditionState Nat :=
  { tools := [c2ToolScene, c2ToolNode, c2ToolLight], currentTools := [],
    shownTabs := [], shownDivs := [], lastTabName := some "SCENE",
    currentObject := 0, handlers := [], toolObjects := [] }

theorem setObject_supported_tools_witness :
    (setObject c2State 1).currentTools =
      c2State.tools.filter (fun t => t.isSupported 1) ∧
    (∀ t ∈ c2State.tools,
      (t.isSupported 1 = true →
        t.tabName ∈ (setObject c2State 1).shownTabs ∧
        t ∈ (setObject c2State 1).currentTools) ∧
      (t.isSupported 1 = false →
        t.tabName ∉ (setObject c2State 1).shownTabs ∧
        t ∉ (setObject c2State 1).currentTools ∧
        t.divId ∉ (setObject c2State 1).shownDivs)) :=
  setObject_supported_tools c2State 1 (by decide) (by decide)

/-- C5: after `changeTab(target)` at most one tool container is visible — the
container of the tool whose tab name equals the target, when such a tool is
registered — every other tool container is hidden, and `lastTabName` equals
the target exactly when some registered tool carries that tab name (otherwise
it is unchanged).  Tools are assumed to carry pairwise-distinct tab names and
div ids. -/
theorem changeTab_spec (s : EditionState α) (target : String)
    (hnt : (s.tools.map Tool.tabName).Nodup)
    (hnd : (s.tools.map Tool.divId).Nodup) :
    (∀ t ∈ s.tools,
      (t.divId ∈ (changeTab s target).shownDivs ↔ t.tabName = target)) ∧
    (∀ t1 ∈ s.tools, ∀ t2 ∈ s.tools,
      t1.divId ∈ (changeTab s target).shownDivs →
      t2.divId ∈ (changeTab s target).shownDivs → t1 = t2) ∧
    ((changeTab s target).lastTabName =
      if ∃ t ∈ s.tools, t.tabName = target then some target
      else s.lastTabName) := by
  refine ⟨?_, ?_, ?_⟩
  · intro t ht
    simp only [changeTab]
    exact changeTabAux_divs_nodup target s.tools s hnd t ht
  · intro t1 h1 t2 h2 hm1 hm2
    simp only [changeTab] at hm1 hm2
    have e1 := (changeTabAux_divs_nodup target s.tools s hnd t1 h1).mp hm1
    have e2 := (changeTabAux_divs_nodup target s.tools s hnd t2 h2).mp hm2
    exact List.inj_on_of_nodup_map hnt h1 h2 (e1.trans e2.symm)
  · simp only [changeTab]
    exact changeTabAux_lastTabName target s.tools s

def c5ToolScene : Tool Nat :=
  { divId := "SCENE-TOOL", tabName := "SCENE", isSupported := fun _ => true }

def c5ToolNode : Tool Nat :=
  { divId := "NODE-TOOL", tabName := "NODE", isSupported := fun n => decide (n = 1) }

def c5State : EditionState Nat :=
  { tools := [c5ToolScene, c5ToolNode], currentTools := [],
    shownTabs := ["SCENE", "NODE"], shownDivs := ["SCENE-TOOL"],
    lastTabName := some "SCENE", currentObject := 0, handlers := [],
    toolObjects := [] }

theorem changeTab_spec_witness :
    (∀ t ∈ c5State.tools,
      (t.divId ∈ (changeTab c5State "NODE").shownDivs ↔ t.tabName = "NODE")) ∧
    (∀ t1 ∈ c5State.tools, ∀ t2 ∈ c5State.tools,
      t1.divId ∈ (changeTab c5State "NODE").shownDivs →
      t2.divId ∈ (changeTab c5State "NODE").shownDivs → t1 = t2) ∧
    ((changeTab c5State "NODE").lastTabName =
      if ∃ t ∈ c5State.tools, t.tabName = "NODE" then some "NODE"
      else c5State.lastTabName) :=
  changeTab_spec c5State "NODE" (by decide) (by decide)

/-- C6: for every registered tool whose `isSupported(object)` holds during
`setObject`, the undo/redo `onFinishChange` handler is installed on the
tool's element, the tool's stored object is the object being edited, and on a
completed property change the handler pushes exactly one undo/redo entry
whose `baseObject` is the tool's object, whose `from` field is the property's
initial value and whose `to` field is the changed result. -/
theorem setObject_undoRedo (s : EditionState α) (o : α) (t : Tool α)
    (ht : t ∈ s.tools) (hs : t.isSupported o = true) :
    t.divId ∈ (setObject s o).handlers ∧
    (setObject s o).toolObjects.lookup t.divId = some o ∧
    (∀ (stack : List (UndoRedoEntry α β)) (p : String) (r : β) (ob : α) (iv : β),
      onFinishChangeHandler o stack p r ob iv =
        { baseObject := o, property := p, toVal := r, fromVal := iv,
          obj := ob } :: stack) := by
  refine ⟨?_, ?_, fun stack p r ob iv => rfl⟩
  · rw [setObject_handlers_mem]
    exact setObjectAux_handlers_of_supported o s.lastTabName s.tools _ none t ht hs
  · rw [setObject_toolObjects]
    exact setObjectAux_lookup_of_supported o s.lastTabName s.tools _ none t ht hs

def c6Tool : Tool Nat :=
  { divId := "LIGHT-TOOL", tabName := "LIGHT", isSupported := fun n => decide (n = 2) }

def c6State : EditionState Nat :=
  { tools := [c6Tool], currentTools := [], shownTabs := [], shownDivs := [],
    lastTabName := some "LIGHT", currentObject := 0, handlers := [],
    toolObjects := [] }

theorem setObject_undoRedo_witness :
    c6Tool.divId ∈ (setObject c6State 2).handlers ∧
    (setObject c6State 2).toolObjects.lookup c6Tool.divId = some 2 ∧
    (∀ (stack : List (UndoRedoEntry Nat Nat)) (p : String) (r : Nat)
        (ob : Nat) (iv : Nat),
      onFinishChangeHandler 2 stack p r ob iv =
        { baseObject := 2, property := p, toVal := r, fromVal := iv,
          obj := ob } :: stack) :=
  setObject_undoRedo c6State 2 c6Tool (List.mem_cons_self _ _) rfl

/-- C10: `setObject` is idempotent at the level of the observable manager
state: running it twice with the same object yields the same `currentTools`
list, the same set of shown tabs and visible containers, the same
`lastTabName`, and `currentObject = o`; hence `refresh()` right after
`setObject(o)` does not change which tab is active. -/
theorem setObject_idempotent (s : EditionState α) (o : α) :
    (setObject (setObject s o) o).currentTools = (setObject s o).currentTools ∧
    (∀ k, k ∈ (setObject (setObject s o) o).shownTabs ↔
      k ∈ (setObject s o).shownTabs) ∧
    (∀ d, d ∈ (setObject (setObject s o) o).shownDivs ↔
      d ∈ (setObject s o).shownDivs) ∧
    (setObject (setObject s o) o).lastTabName = (setObject s o).lastTabName ∧
    (setObject s o).currentObject = o ∧
    (refresh (setObject s o)).lastTabName = (setObject s o).lastTabName := by
  have hT := setObject_tools s o
  have hmain :
      (setObject (setObject s o) o).lastTabName = (setObject s o).lastTabName ∧
      (∀ d, d ∈ (setObject (setObject s o) o).shownDivs ↔
        d ∈ (setObject s o).shownDivs) := by
    cases hp1 : (setObjectAux o s.lastTabName s.tools
        { s with currentTools := [] } none).2 with
    | none =>
      have hnosup : ∀ t ∈ s.tools, t.isSupported o = false := by
        rw [setObjectAux_snd] at hp1
        exact pickList_none_unsupported o s.lastTabName s.tools hp1
      have hp2 : (setObjectAux o (setObject s o).lastTabName (setObject s o).tools
          { setObject s o with currentTools := [] } none).2 = none := by
        rw [setObjectAux_snd, hT]
        exact pickList_of_unsupported o _ s.tools none hnosup
      constructor
      · rw [setObject_lastTabName_none (setObject s o) o hp2,
          setObject_lastTabName_none s o hp1]
      · intro d
        by_cases htouch : ∃ t ∈ s.tools, t.divId = d
        · rw [setObject_shownDivs_none (setObject s o) o hp2 d,
            setObject_shownDivs_none s o hp1 d, hT]
          exact setObjectAux_divs_touched o d s.tools _ _ _ _ _ _ htouch
        · push_neg at htouch
          have h2 : ∀ t ∈ (setObject s o).tools, t.divId ≠ d := by
            rw [hT]
            exact htouch
          rw [setObject_shownDivs_none (setObject s o) o hp2 d]
          exact setObjectAux_divs_untouched o _ d _ _ none h2
    | some t1 =>
      have hm1 : t1 ∈ s.tools ∧ t1.isSupported o = true := by
        have hp1b := hp1
        rw [setObjectAux_snd] at hp1b
        rcases pickList_mem o s.lastTabName s.tools none t1 hp1b with h | h
        · exact h
        · cases h
      have hlast1 : (setObject s o).lastTabName = some t1.tabName :=
        setObject_lastTabName_some s o t1 hp1
      obtain ⟨t2, hp2b, hmatch2⟩ := pickList_exists_match o
        (setObject s o).lastTabName (setObject s o).tools none
        (by rw [hT, hlast1]; exact ⟨t1, hm1.1, hm1.2, rfl⟩)
      have hp2 : (setObjectAux o (setObject s o).lastTabName (setObject s o).tools
          { setObject s o with currentTools := [] } none).2 = some t2 := by
        rw [setObjectAux_snd]
        exact hp2b
      have htab2 : t2.tabName = t1.tabName := by
        rw [hlast1] at hmatch2
        exact Option.some.inj hmatch2
      constructor
      · rw [setObject_lastTabName_some (setObject s o) o t2 hp2, htab2, hlast1]
      · intro d
        by_cases htouch : ∃ t ∈ s.tools, t.divId = d
        · rw [setObject_shownDivs_some (setObject s o) o t2 hp2,
            setObject_shownDivs_some s o t1 hp1, hT, htab2]
          exact changeTabAux_divs_touched t1.tabName d s.tools _ _ htouch
        · push_neg at htouch
          have h2 : ∀ t ∈ (setObject s o).tools, t.divId ≠ d := by
            rw [hT]
            exact htouch
          rw [setObject_shownDivs_some (setObject s o) o t2 hp2]
          refine Iff.trans (changeTabAux_divs_untouched t2.tabName d _ _ h2) ?_
          exact setObjectAux_divs_untouched o _ d _ _ none h2
  refine ⟨?_, ?_, hmain.2, hmain.1, setObject_currentObject s o, ?_⟩
  · rw [setObject_currentTools, setObject_currentTools, hT]
  · intro k
    by_cases htouch : ∃ t ∈ s.tools, t.tabName = k
    · refine Iff.trans (setObject_shownTabs_mem (setObject s o) o k) ?_
      refine Iff.trans ?_ (setObject_shownTabs_mem s o k).symm
      rw [hT]
      exact setObjectAux_tabs_touched o k s.tools _ _ _ _ _ _ htouch
    · push_neg at htouch
      have h2 : ∀ t ∈ (setObject s o).tools, t.tabName ≠ k := by
        rw [hT]
        exact htouch
      refine Iff.trans (setObject_shownTabs_mem (setObject s o) o k) ?_
      exact setObjectAux_tabs_untouched o _ k _ _ none h2
  · rw [refresh, setObject_currentObject s o]
    exact hmain.1
